import Mathlib

/-!
Shallow embedding of the NEO close-approach query program
(`models.py`, `database.py`, `filters.py`).

Modelling conventions:
* Python object identity for the linked graph is modelled by list
  positions: a `NearEarthObject.approaches` collection holds indices
  into the store's approach list, and a `CloseApproach.neo` reference
  is an optional index into the store's NEO list.
* Python `float` values are modelled by `PyFloat` (a rational or the
  NaN sentinel); every comparison against NaN is `false`, as in Python.
* Python `datetime` is modelled by `Datetime`, a calendar date (as an
  ordinal integer) plus a time of day; `.date()` projects the date.
* A Python `dict` is modelled by an association list with
  overwrite-on-insert semantics (`dictSet` / `dictGet`).
* Raised exceptions are modelled by `Option` (constructor failure) and
  `Except PyError` (filter evaluation).
* Python truthiness of `Optional[int]` is modelled where the source
  relies on it (`limit`); a `NearEarthObject` instance is always
  truthy, so the `if self._data_map[designation]:` guard in the
  constructor succeeds whenever the key lookup itself succeeds.
-/

/-- Result values of Python expressions as seen by `NEODatabase.filter`,
enough to distinguish the `False` singleton from other falsy values. -/
inductive PyObj where
  | pybool (b : Bool)
  | pyint (n : Int)
  | pynone
  | pystr (s : String)
  deriving DecidableEq, Repr

/-- Python `x is False`: true exactly for the boolean singleton `False`;
falsy values such as `0`, `None` or `""` are different objects. -/
def PyObj.isLiteralFalse : PyObj → Bool
  | .pybool false => true
  | _ => false

/-- A Python float: a numeric value or the NaN sentinel. -/
inductive PyFloat where
  | nan
  | val (q : Rat)
  deriving DecidableEq, Repr

/-- A UTC timestamp: calendar date (ordinal) and time of day (minutes). -/
structure Datetime where
  date : Int
  timeOfDay : Nat
  deriving DecidableEq, Repr

/-- `models.NearEarthObject`. `approaches` holds indices into the
store's close-approach list (position-as-identity model). -/
structure NearEarthObject where
  designation : String
  name : Option String
  diameter : PyFloat
  hazardous : Bool
  approaches : List Nat
  deriving DecidableEq, Repr

/-- `models.CloseApproach`. `_designation` is the private foreign-key
attribute; `neo` is an optional index into the store's NEO list,
`None` until linking. -/
structure CloseApproach where
  _designation : String
  time : Datetime
  distance : PyFloat
  velocity : PyFloat
  neo : Option Nat
  deriving DecidableEq, Repr

/-- The `designation` property of `models.CloseApproach`. -/
def CloseApproach.designation (a : CloseApproach) : String :=
  a._designation

/-- Python dict lookup `m[k]` as an option (`none` models `KeyError`). -/
def dictGet : List (String × Nat) → String → Option Nat
  | [], _ => Option.none
  | (k0, v0) :: rest, k => if k0 = k then some v0 else dictGet rest k

/-- Python dict assignment `m[k] = v`: update in place when the key is
present, append otherwise. -/
def dictSet : List (String × Nat) → String → Nat → List (String × Nat)
  | [], k, v => [(k, v)]
  | (k0, v0) :: rest, k, v =>
      if k0 = k then (k, v) :: rest else (k0, v0) :: dictSet rest k v

/-- The first linking pass of `NEODatabase.__init__`:
`for neo in self._neos: self._data_map[neo.designation] = neo`,
with the NEO stored as its index `i` in the supplied list. -/
def buildMapFrom (i : Nat) :
    List NearEarthObject → List (String × Nat) → List (String × Nat)
  | [], m => m
  | neo :: rest, m => buildMapFrom (i + 1) rest (dictSet m neo.designation i)

/-- In-place update of one list element, `l[j] = f(l[j])`. -/
def listModify : List α → Nat → (α → α) → List α
  | [], _, _ => []
  | x :: xs, 0, f => f x :: xs
  | x :: xs, n + 1, f => x :: listModify xs n f

/-- The second linking pass of `NEODatabase.__init__`: for each approach
(at running index `i`) resolve `approach.designation` in the map —
`self._data_map[designation]` raises `KeyError` (modelled as `none`)
when absent; a `NearEarthObject` is always truthy, so on success the
loop sets `approach.neo` and appends the approach to
`self._data_map[designation].approaches`. -/
def linkApproaches (m : List (String × Nat)) (i : Nat)
    (neos : List NearEarthObject) :
    List CloseApproach → Option (List NearEarthObject × List CloseApproach)
  | [] => some (neos, [])
  | a :: rest =>
    match dictGet m a.designation with
    | Option.none => Option.none
    | some j =>
      match linkApproaches m (i + 1)
          (listModify neos j
            (fun nb => { nb with approaches := nb.approaches ++ [i] })) rest with
      | Option.none => Option.none
      | some (neosF, restF) => some (neosF, { a with neo := some j } :: restF)

/-- `database.NEODatabase`: the linked store. -/
structure NEODatabase where
  _neos : List NearEarthObject
  _approaches : List CloseApproach
  _data_map : List (String × Nat)
  deriving DecidableEq, Repr

/-- `NEODatabase.__init__`: build the designation map, then link;
`none` models the constructor raising (`KeyError` on an unresolvable
designation). -/
def NEODatabase.init (neos : List NearEarthObject)
    (approaches : List CloseApproach) : Option NEODatabase :=
  let m := buildMapFrom 0 neos []
  match linkApproaches m 0 neos approaches with
  | Option.none => Option.none
  | some (neosF, apsF) => some ⟨neosF, apsF, m⟩

/-- `NEODatabase.get_neo_by_designation`: linear scan, first exact
match, `None` when the scan falls through. -/
def NEODatabase.get_neo_by_designation (db : NEODatabase)
    (designation : String) : Option NearEarthObject :=
  db._neos.find? (fun neo => neo.designation == designation)

/-- `NEODatabase.get_neo_by_name`: linear scan comparing `neo.name ==
name` with Python `==` on optional strings (`None == None` is `True`),
`None` when the scan falls through. -/
def NEODatabase.get_neo_by_name (db : NEODatabase)
    (name : Option String) : Option NearEarthObject :=
  db._neos.find? (fun neo => neo.name == name)

/-- `NEODatabase.filter`: return `False` as soon as some filter result
`is False` (identity test against the singleton), else `True`. -/
def NEODatabase.filter (db : NEODatabase) (approach : CloseApproach) :
    List (CloseApproach → PyObj) → Bool
  | [] => true
  | f :: rest =>
      if (f approach).isLiteralFalse then false else db.filter approach rest

/-- `NEODatabase.query`: yield, in store order, each stored approach
that passes `NEODatabase.filter` (the generator, fully consumed). -/
def NEODatabase.query (db : NEODatabase)
    (filters : List (CloseApproach → PyObj)) : List CloseApproach :=
  db._approaches.filter (fun a => db.filter a filters)

/-- `filters.limit`: `if n:` is false for both `None` and `0`, in which
case the sequence is returned unchanged; otherwise `islice(iterator, n)`
yields the first `n` elements. -/
def limit (iterator : List α) (n : Option Nat) : List α :=
  match n with
  | some k => if k ≠ 0 then iterator.take k else iterator
  | Option.none => iterator

/-- The comparator of a filter: one of `operator.eq`, `operator.ge`,
`operator.le`. -/
inductive CmpOp where
  | eq
  | ge
  | le
  deriving DecidableEq, Repr

/-- Attribute values fetched by a filter accessor and the reference
values compared against them. -/
inductive PyVal where
  | vdate (d : Int)
  | vfloat (x : PyFloat)
  | vbool (b : Bool)
  deriving DecidableEq, Repr

/-- Python float comparison: every comparison involving NaN is `False`. -/
def PyFloat.cmp : CmpOp → PyFloat → PyFloat → Bool
  | .eq, .val a, .val b => a == b
  | .ge, .val a, .val b => b ≤ a
  | .le, .val a, .val b => a ≤ b
  | _, _, _ => false

/-- Evaluation of a comparator on attribute values; the created filters
only ever compare values of the same kind. -/
def cmpEval : CmpOp → PyVal → PyVal → Bool
  | op, .vfloat a, .vfloat b => PyFloat.cmp op a b
  | .eq, .vdate a, .vdate b => a == b
  | .ge, .vdate a, .vdate b => b ≤ a
  | .le, .vdate a, .vdate b => a ≤ b
  | .eq, .vbool a, .vbool b => a == b
  | _, _, _ => false

/-- The concrete class of an `AttributeFilter` instance, determining
which `get` accessor runs: the base class itself, or one of the five
subclasses of `filters.py`. -/
inductive FilterKind where
  | AttributeFilterBase
  | DateFilter
  | DistanceFilter
  | VelocityFilter
  | DiameterFilter
  | HazardousFilter
  deriving DecidableEq, Repr

/-- Exceptions raised during filter evaluation. -/
inductive PyError where
  | UnsupportedCriterionError
  | AttributeErr
  deriving DecidableEq, Repr

/-- `filters.AttributeFilter` (and its subclasses): a comparator, a
reference value, and the class tag selecting the `get` accessor. -/
structure AttributeFilter where
  kind : FilterKind
  op : CmpOp
  value : PyVal
  deriving DecidableEq, Repr

/-- The `get` classmethod: the base class raises
`UnsupportedCriterionError`; each subclass fetches its attribute.
`neos` resolves the `approach.neo` index (dereferencing an unlinked
`None` reference raises, modelled as `AttributeErr`). -/
def AttributeFilter.get (f : AttributeFilter)
    (neos : List NearEarthObject) (approach : CloseApproach) :
    Except PyError PyVal :=
  match f.kind with
  | .AttributeFilterBase => .error .UnsupportedCriterionError
  | .DateFilter => .ok (.vdate approach.time.date)
  | .DistanceFilter => .ok (.vfloat approach.distance)
  | .VelocityFilter => .ok (.vfloat approach.velocity)
  | .DiameterFilter =>
    match approach.neo with
    | Option.none => .error .AttributeErr
    | some j =>
      match neos.get? j with
      | some nb => .ok (.vfloat nb.diameter)
      | Option.none => .error .AttributeErr
  | .HazardousFilter =>
    match approach.neo with
    | Option.none => .error .AttributeErr
    | some j =>
      match neos.get? j with
      | some nb => .ok (.vbool nb.hazardous)
      | Option.none => .error .AttributeErr

/-- `AttributeFilter.__call__`: `self.op(self.get(approach), self.value)`;
an exception in `get` propagates. -/
def AttributeFilter.call (f : AttributeFilter)
    (neos : List NearEarthObject) (approach : CloseApproach) :
    Except PyError PyObj :=
  match f.get neos approach with
  | .error e => .error e
  | .ok v => .ok (.pybool (cmpEval f.op v f.value))

/-- `filters.create_filters`: start from an empty list and append one
filter per present (non-`None`) option, in source order. -/
def create_filters (date : Option Int) (start_date : Option Int)
    (end_date : Option Int) (distance_min : Option PyFloat)
    (distance_max : Option PyFloat) (velocity_min : Option PyFloat)
    (velocity_max : Option PyFloat) (diameter_min : Option PyFloat)
    (diameter_max : Option PyFloat) (hazardous : Option Bool) :
    List AttributeFilter :=
  let filters : List AttributeFilter := []
  let filters := match date with
    | some v => filters ++ [⟨.DateFilter, .eq, .vdate v⟩]
    | Option.none => filters
  let filters := match start_date with
    | some v => filters ++ [⟨.DateFilter, .ge, .vdate v⟩]
    | Option.none => filters
  let filters := match end_date with
    | some v => filters ++ [⟨.DateFilter, .le, .vdate v⟩]
    | Option.none => filters
  let filters := match distance_min with
    | some v => filters ++ [⟨.DistanceFilter, .ge, .vfloat v⟩]
    | Option.none => filters
  let filters := match distance_max with
    | some v => filters ++ [⟨.DistanceFilter, .le, .vfloat v⟩]
    | Option.none => filters
  let filters := match velocity_min with
    | some v => filters ++ [⟨.VelocityFilter, .ge, .vfloat v⟩]
    | Option.none => filters
  let filters := match velocity_max with
    | some v => filters ++ [⟨.VelocityFilter, .le, .vfloat v⟩]
    | Option.none => filters
  let filters := match diameter_min with
    | some v => filters ++ [⟨.DiameterFilter, .ge, .vfloat v⟩]
    | Option.none => filters
  let filters := match diameter_max with
    | some v => filters ++ [⟨.DiameterFilter, .le, .vfloat v⟩]
    | Option.none => filters
  let filters := match hazardous with
    | some v => filters ++ [⟨.HazardousFilter, .eq, .vbool v⟩]
    | Option.none => filters
  filters

/-- The body of `get_neo_by_designation` / `get_neo_by_name` with the
store state threaded through every iteration: the loop only reads the
store (no statement assigns to `self`), returning on the first match
or falling through to `None`. -/
def findNeoLoop (p : NearEarthObject → Bool) :
    List NearEarthObject → NEODatabase →
    Option NearEarthObject × NEODatabase
  | [], db => (Option.none, db)
  | neo :: rest, db =>
      if p neo then (some neo, db) else findNeoLoop p rest db

/-- `get_neo_by_designation` as a state-passing method call: the result
together with the store it leaves behind. -/
def NEODatabase.get_neo_by_designation_st (db : NEODatabase)
    (designation : String) : Option NearEarthObject × NEODatabase :=
  findNeoLoop (fun neo => neo.designation == designation) db._neos db

/-- `get_neo_by_name` as a state-passing method call. -/
def NEODatabase.get_neo_by_name_st (db : NEODatabase)
    (name : Option String) : Option NearEarthObject × NEODatabase :=
  findNeoLoop (fun neo => neo.name == name) db._neos db

/-- The body of `NEODatabase.filter` with the store state threaded
through every iteration of its loop. -/
def filterLoop (approach : CloseApproach) :
    List (CloseApproach → PyObj) → NEODatabase → Bool × NEODatabase
  | [], db => (true, db)
  | f :: rest, db =>
      if (f approach).isLiteralFalse then (false, db)
      else filterLoop approach rest db

/-- The generator loop of `NEODatabase.query`, fully consumed, with the
store state threaded through every iteration (each iteration invokes
`self.filter`). -/
def queryLoop (filters : List (CloseApproach → PyObj)) :
    List CloseApproach → NEODatabase → List CloseApproach × NEODatabase
  | [], db => ([], db)
  | a :: rest, db =>
      match filterLoop a filters db with
      | (true, db1) =>
          match queryLoop filters rest db1 with
          | (out, db2) => (a :: out, db2)
      | (false, db1) => queryLoop filters rest db1

/-- `query` as a state-passing method call whose yielded sequence is
fully consumed: the results together with the store left behind. -/
def NEODatabase.query_st (db : NEODatabase)
    (filters : List (CloseApproach → PyObj)) :
    List CloseApproach × NEODatabase :=
  queryLoop filters db._approaches db

/-- Indices (counted from `i`) of the approaches in a list whose
designation resolves, via the map, to the NEO at index `j` — the
closed form of the appends performed by `linkApproaches`. -/
def linkedIdxs (m : List (String × Nat)) (i : Nat) (j : Nat) :
    List CloseApproach → List Nat
  | [] => []
  | a :: rest =>
      (if dictGet m a.designation = some j then [i] else []) ++
        linkedIdxs m (i + 1) j rest

/-- A sample named NEO used in concrete instantiations. -/
def neo0 : NearEarthObject :=
  ⟨"2015 AB", some "Alpha", PyFloat.val 1, true, []⟩

/-- A sample unnamed NEO (its `name` attribute is `None`). -/
def neoUnnamed : NearEarthObject :=
  ⟨"X", Option.none, PyFloat.nan, false, []⟩

/-- A sample pre-link close approach of `neo0`. -/
def approach0 : CloseApproach :=
  ⟨"2015 AB", ⟨737425, 0⟩, PyFloat.val 1, PyFloat.val 10, Option.none⟩

/-- A store holding only `neo0`. -/
def neoDb0 : NEODatabase := ⟨[neo0], [], [("2015 AB", 0)]⟩

/-- A store holding only the unnamed NEO. -/
def neoDbUnnamed : NEODatabase := ⟨[neoUnnamed], [], [("X", 0)]⟩

/-- A store holding `neo0` and one stored approach. -/
def neoDbQ : NEODatabase := ⟨[neo0], [approach0], [("2015 AB", 0)]⟩

/-- Three callables whose results are falsy Python values distinct from
the `False` singleton: `0`, `None` and the empty string. -/
def falsyFilters : List (CloseApproach → PyObj) :=
  [fun _ => PyObj.pyint 0, fun _ => PyObj.pynone, fun _ => PyObj.pystr ""]

/-- A pre-link approach whose designation matches no stored NEO. -/
def apOrphan : CloseApproach :=
  ⟨"NOPE", ⟨0, 0⟩, PyFloat.nan, PyFloat.nan, Option.none⟩

theorem isLiteralFalse_eq_false_iff (v : PyObj) :
    v.isLiteralFalse = false ↔ v ≠ PyObj.pybool false := by
  cases v with
  | pybool b => cases b <;> simp [PyObj.isLiteralFalse]
  | pyint n => simp [PyObj.isLiteralFalse]
  | pynone => simp [PyObj.isLiteralFalse]
  | pystr s => simp [PyObj.isLiteralFalse]

theorem filter_eq_true_of_not_false (db : NEODatabase) (a : CloseApproach) :
    ∀ F : List (CloseApproach → PyObj),
      (∀ f ∈ F, f a ≠ PyObj.pybool false) → db.filter a F = true := by
  intro F
  induction F with
  | nil => intro _; rfl
  | cons f rest ih =>
      intro h
      have hf : (f a).isLiteralFalse = false :=
        (isLiteralFalse_eq_false_iff (f a)).mpr (h f (List.mem_cons_self f rest))
      simp only [NEODatabase.filter, hf, Bool.false_eq_true, if_false]
      exact ih fun g hg => h g (List.mem_cons_of_mem f hg)

theorem filter_map_bool (db : NEODatabase) (a : CloseApproach)
    (F : List (CloseApproach → Bool)) :
    db.filter a (F.map fun f x => PyObj.pybool (f x)) = true ↔
      ∀ f ∈ F, f a = true := by
  induction F with
  | nil => simp [NEODatabase.filter]
  | cons f rest ih =>
      simp only [List.map_cons, NEODatabase.filter, List.forall_mem_cons]
      rcases Bool.eq_false_or_eq_true (f a) with hfa | hfa <;>
        simp [PyObj.isLiteralFalse, hfa, ih]

theorem query_nil_eq (db : NEODatabase) : db.query [] = db._approaches := by
  simp [NEODatabase.query, NEODatabase.filter]

/-- Claim C2: an approach is yielded by `query(F)` exactly when every
boolean predicate in `F` evaluates true on it, and `query` with an
empty filter collection yields every stored approach in store order
with no omissions or duplicates. -/
theorem claim_C2_conjunctive_query (db : NEODatabase)
    (F : List (CloseApproach → Bool)) (a : CloseApproach) :
    (a ∈ db.query (F.map fun f x => PyObj.pybool (f x)) ↔
      a ∈ db._approaches ∧ ∀ f ∈ F, f a = true) ∧
    db.query [] = db._approaches := by
  constructor
  · rw [NEODatabase.query, List.mem_filter, filter_map_bool]
  · exact query_nil_eq db

/-- Claim C3: `limit` with bound `0` or an absent bound yields the
sequence unchanged; a positive bound `k ≤ length` yields exactly the
first `k` elements in order; a bound beyond the length yields the
whole sequence. -/
theorem claim_C3_limit {α : Type} (seq : List α) (k : Nat) (hk : 0 < k) :
    limit seq (some 0) = seq ∧ limit seq Option.none = seq ∧
    (k ≤ seq.length →
      limit seq (some k) = seq.take k ∧ (limit seq (some k)).length = k) ∧
    (seq.length < k → limit seq (some k) = seq) := by
  have hne : k ≠ 0 := Nat.pos_iff_ne_zero.mp hk
  refine ⟨rfl, rfl, ?_, ?_⟩
  · intro hle
    constructor
    · simp [limit, hne]
    · simp [limit, hne, List.length_take]
      omega
  · intro hlt
    simp [limit, hne, List.take_of_length_le (Nat.le_of_lt hlt)]

theorem claim_C3_limit_witness :
    0 < 2 ∧
    (limit [10, 20, 30] (some 0) = [10, 20, 30] ∧
      limit [10, 20, 30] Option.none = [10, 20, 30] ∧
      (2 ≤ [10, 20, 30].length →
        limit [10, 20, 30] (some 2) = [10, 20, 30].take 2 ∧
          (limit [10, 20, 30] (some 2)).length = 2) ∧
      ([10, 20, 30].length < 2 → limit [10, 20, 30] (some 2) = [10, 20, 30])) :=
  ⟨by decide, claim_C3_limit [10, 20, 30] 2 (by decide)⟩

/-- Claim C10: `NEODatabase.filter` rejects only on the literal boolean
`False`: when every filter result on a stored approach is any value
other than `False` — falsy values like `0`, `None` or `""` included —
the approach passes and is yielded by `query`. -/
theorem claim_C10_identity_test (db : NEODatabase) (a : CloseApproach)
    (F : List (CloseApproach → PyObj))
    (hF : ∀ f ∈ F, f a ≠ PyObj.pybool false) (ha : a ∈ db._approaches) :
    db.filter a F = true ∧ a ∈ db.query F := by
  have h1 := filter_eq_true_of_not_false db a F hF
  exact ⟨h1, by rw [NEODatabase.query]; exact List.mem_filter.mpr ⟨ha, h1⟩⟩

theorem claim_C10_identity_test_witness :
    neoDbQ.filter approach0 falsyFilters = true ∧
      approach0 ∈ neoDbQ.query falsyFilters :=
  claim_C10_identity_test neoDbQ approach0 falsyFilters
    (by
      intro f hf
      rcases List.mem_cons.mp hf with rfl | hf
      · decide
      rcases List.mem_cons.mp hf with rfl | hf
      · decide
      rcases List.mem_cons.mp hf with rfl | hf
      · decide
      cases hf)
    (by decide)

set_option maxHeartbeats 1600000 in
theorem create_filters_eq (d sd ed : Option Int)
    (dmin dmax vmin vmax dimin dimax : Option PyFloat) (hz : Option Bool) :
    create_filters d sd ed dmin dmax vmin vmax dimin dimax hz =
      (d.map fun v => AttributeFilter.mk .DateFilter .eq (.vdate v)).toList ++
      (sd.map fun v => AttributeFilter.mk .DateFilter .ge (.vdate v)).toList ++
      (ed.map fun v => AttributeFilter.mk .DateFilter .le (.vdate v)).toList ++
      (dmin.map fun v => AttributeFilter.mk .DistanceFilter .ge (.vfloat v)).toList ++
      (dmax.map fun v => AttributeFilter.mk .DistanceFilter .le (.vfloat v)).toList ++
      (vmin.map fun v => AttributeFilter.mk .VelocityFilter .ge (.vfloat v)).toList ++
      (vmax.map fun v => AttributeFilter.mk .VelocityFilter .le (.vfloat v)).toList ++
      (dimin.map fun v => AttributeFilter.mk .DiameterFilter .ge (.vfloat v)).toList ++
      (dimax.map fun v => AttributeFilter.mk .DiameterFilter .le (.vfloat v)).toList ++
      (hz.map fun v => AttributeFilter.mk .HazardousFilter .eq (.vbool v)).toList := by
  cases d <;> cases sd <;> cases ed <;> cases dmin <;> cases dmax <;>
    cases vmin <;> cases vmax <;> cases dimin <;> cases dimax <;> cases hz <;>
      rfl

/-- Claim C5: `create_filters` appends exactly one predicate per present
option — with the comparator and accessor class matching that option,
absent options contributing nothing, in the fixed source order — and
`hazardous=False` (unlike absent) still contributes a filter. -/
theorem claim_C5_create_filters (d sd ed : Option Int)
    (dmin dmax vmin vmax dimin dimax : Option PyFloat) (hz : Option Bool) :
    (create_filters d sd ed dmin dmax vmin vmax dimin dimax hz =
      (d.map fun v => AttributeFilter.mk .DateFilter .eq (.vdate v)).toList ++
      (sd.map fun v => AttributeFilter.mk .DateFilter .ge (.vdate v)).toList ++
      (ed.map fun v => AttributeFilter.mk .DateFilter .le (.vdate v)).toList ++
      (dmin.map fun v => AttributeFilter.mk .DistanceFilter .ge (.vfloat v)).toList ++
      (dmax.map fun v => AttributeFilter.mk .DistanceFilter .le (.vfloat v)).toList ++
      (vmin.map fun v => AttributeFilter.mk .VelocityFilter .ge (.vfloat v)).toList ++
      (vmax.map fun v => AttributeFilter.mk .VelocityFilter .le (.vfloat v)).toList ++
      (dimin.map fun v => AttributeFilter.mk .DiameterFilter .ge (.vfloat v)).toList ++
      (dimax.map fun v => AttributeFilter.mk .DiameterFilter .le (.vfloat v)).toList ++
      (hz.map fun v => AttributeFilter.mk .HazardousFilter .eq (.vbool v)).toList) ∧
    create_filters Option.none Option.none Option.none Option.none Option.none
        Option.none Option.none Option.none Option.none (some false) =
      [AttributeFilter.mk .HazardousFilter .eq (.vbool false)] :=
  ⟨create_filters_eq d sd ed dmin dmax vmin vmax dimin dimax hz, rfl⟩

theorem call_ne_uce_of_kind (f : AttributeFilter)
    (h : f.kind ≠ FilterKind.AttributeFilterBase)
    (neos : List NearEarthObject) (approach : CloseApproach) :
    f.call neos approach ≠ Except.error PyError.UnsupportedCriterionError := by
  rcases f with ⟨k, op, v⟩
  cases k with
  | AttributeFilterBase => exact absurd rfl h
  | DateFilter => simp [AttributeFilter.call, AttributeFilter.get]
  | DistanceFilter => simp [AttributeFilter.call, AttributeFilter.get]
  | VelocityFilter => simp [AttributeFilter.call, AttributeFilter.get]
  | DiameterFilter =>
      rcases happ : approach.neo with _ | j
      · simp [AttributeFilter.call, AttributeFilter.get, happ]
      · rcases hj : neos[j]? with _ | nb <;>
          simp [AttributeFilter.call, AttributeFilter.get, happ, hj]
  | HazardousFilter =>
      rcases happ : approach.neo with _ | j
      · simp [AttributeFilter.call, AttributeFilter.get, happ]
      · rcases hj : neos[j]? with _ | nb <;>
          simp [AttributeFilter.call, AttributeFilter.get, happ, hj]

theorem mem_create_filters_kind (d sd ed : Option Int)
    (dmin dmax vmin vmax dimin dimax : Option PyFloat) (hz : Option Bool)
    (f : AttributeFilter)
    (hf : f ∈ create_filters d sd ed dmin dmax vmin vmax dimin dimax hz) :
    f.kind ≠ FilterKind.AttributeFilterBase := by
  rw [create_filters_eq] at hf
  simp only [List.mem_append, Option.mem_toList, Option.mem_def,
    Option.map_eq_some'] at hf
  rcases hf with ((((((((hf | hf) | hf) | hf) | hf) | hf) | hf) | hf) | hf) | hf <;>
    · rcases hf with ⟨v, hv, rfl⟩
      simp

/-- Claim C8: calling the base `AttributeFilter` (whose `get` accessor
is not overridden) raises `UnsupportedCriterionError` on every
approach, and no filter produced by `create_filters` ever raises that
error when called. -/
theorem claim_C8_unsupported_criterion :
    (∀ (op : CmpOp) (value : PyVal) (neos : List NearEarthObject)
        (approach : CloseApproach),
      AttributeFilter.call ⟨FilterKind.AttributeFilterBase, op, value⟩ neos
          approach = Except.error PyError.UnsupportedCriterionError) ∧
    (∀ (d sd ed : Option Int)
        (dmin dmax vmin vmax dimin dimax : Option PyFloat) (hz : Option Bool)
        (f : AttributeFilter),
      f ∈ create_filters d sd ed dmin dmax vmin vmax dimin dimax hz →
        ∀ (neos : List NearEarthObject) (approach : CloseApproach),
          f.call neos approach ≠
            Except.error PyError.UnsupportedCriterionError) := by
  constructor
  · intro op value neos approach; rfl
  · intro d sd ed dmin dmax vmin vmax dimin dimax hz f hf neos approach
    exact call_ne_uce_of_kind f
      (mem_create_filters_kind d sd ed dmin dmax vmin vmax dimin dimax hz f hf)
      neos approach

theorem claim_C8_unsupported_criterion_witness :
    (AttributeFilter.mk .AttributeFilterBase .eq (.vbool true)).call []
        approach0 = Except.error PyError.UnsupportedCriterionError ∧
    (AttributeFilter.mk .DateFilter .eq (.vdate 5)).call [] approach0 ≠
      Except.error PyError.UnsupportedCriterionError ∧
    AttributeFilter.mk .DateFilter .eq (.vdate 5) ∈
      create_filters (some 5) Option.none Option.none Option.none Option.none
        Option.none Option.none Option.none Option.none Option.none :=
  ⟨claim_C8_unsupported_criterion.1 .eq (.vbool true) [] approach0,
   claim_C8_unsupported_criterion.2 (some 5) Option.none Option.none
     Option.none Option.none Option.none Option.none Option.none Option.none
     Option.none (AttributeFilter.mk .DateFilter .eq (.vdate 5)) (by decide)
     [] approach0,
   by decide⟩

theorem findNeoLoop_state (p : NearEarthObject → Bool) :
    ∀ (l : List NearEarthObject) (db : NEODatabase),
      (findNeoLoop p l db).2 = db := by
  intro l
  induction l with
  | nil => intro db; rfl
  | cons x xs ih =>
      intro db
      by_cases h : p x = true <;> simp [findNeoLoop, h, ih]

theorem filterLoop_state (a : CloseApproach) :
    ∀ (F : List (CloseApproach → PyObj)) (db : NEODatabase),
      (filterLoop a F db).2 = db := by
  intro F
  induction F with
  | nil => intro db; rfl
  | cons f rest ih =>
      intro db
      by_cases h : (f a).isLiteralFalse = true <;> simp [filterLoop, h, ih]

theorem queryLoop_state (F : List (CloseApproach → PyObj)) :
    ∀ (l : List CloseApproach) (db : NEODatabase),
      (queryLoop F l db).2 = db := by
  intro l
  induction l with
  | nil => intro db; rfl
  | cons a rest ih =>
      intro db
      have hfl := filterLoop_state a F db
      rcases hq : filterLoop a F db with ⟨b, db1⟩
      rw [hq] at hfl
      cases b
      · simp only [queryLoop, hq]
        rw [ih db1]
        exact hfl
      · rcases hq2 : queryLoop F rest db1 with ⟨out, db2⟩
        have h2 := ih db1
        rw [hq2] at h2
        simp only [queryLoop, hq, hq2]
        exact h2.trans hfl

/-- Claim C9: the store is read-only after construction — each of
`get_neo_by_designation`, `get_neo_by_name` and `query` (yielded
sequence fully consumed), run as a state-passing method call, leaves
the store, hence its NEO collection, approach collection, designation
map, and every contained record, unchanged. -/
theorem claim_C9_read_only (db : NEODatabase) (d : String)
    (nm : Option String) (F : List (CloseApproach → PyObj)) :
    (db.get_neo_by_designation_st d).2 = db ∧
    (db.get_neo_by_name_st nm).2 = db ∧
    (db.query_st F).2 = db ∧
    (db.get_neo_by_designation_st d).2._neos = db._neos ∧
    (db.get_neo_by_name_st nm).2._neos = db._neos ∧
    (db.query_st F).2._neos = db._neos ∧
    (db.query_st F).2._approaches = db._approaches ∧
    (db.query_st F).2._data_map = db._data_map := by
  have h1 : (db.get_neo_by_designation_st d).2 = db := findNeoLoop_state _ _ db
  have h2 : (db.get_neo_by_name_st nm).2 = db := findNeoLoop_state _ _ db
  have h3 : (db.query_st F).2 = db := queryLoop_state F db._approaches db
  exact ⟨h1, h2, h3, by rw [h1], by rw [h2], by rw [h3], by rw [h3],
    by rw [h3]⟩

theorem find?_designation_unique (l : List NearEarthObject)
    (hp : l.Pairwise fun x y => x.designation ≠ y.designation) (d : String)
    (n : NearEarthObject) :
    l.find? (fun nb => nb.designation == d) = some n ↔
      n ∈ l ∧ n.designation = d := by
  induction l with
  | nil => simp
  | cons nb rest ih =>
      rcases List.pairwise_cons.mp hp with ⟨hhead, htail⟩
      by_cases hd : nb.designation = d
      · rw [List.find?_cons_of_pos _ (by simp [hd])]
        constructor
        · intro h
          injection h with h
          subst h
          exact ⟨List.mem_cons_self _ _, hd⟩
        · rintro ⟨hmem, hdes⟩
          rcases List.mem_cons.mp hmem with rfl | hmem
          · rfl
          · exact absurd (hd.trans hdes.symm) (hhead n hmem)
      · rw [List.find?_cons_of_neg _ (by simp [hd])]
        rw [ih htail]
        constructor
        · rintro ⟨hmem, hdes⟩
          exact ⟨List.mem_cons_of_mem _ hmem, hdes⟩
        · rintro ⟨hmem, hdes⟩
          rcases List.mem_cons.mp hmem with rfl | hmem
          · exact absurd hdes hd
          · exact ⟨hmem, hdes⟩

/-- Claim C6: when stored designations are unique,
`get_neo_by_designation(d)` returns exactly the stored NEO whose
designation equals `d` (case-sensitively), and returns the absent
value — never an error — precisely when no stored NEO has that
designation. -/
theorem claim_C6_lookup_designation (db : NEODatabase) (d : String)
    (huniq : db._neos.Pairwise fun x y => x.designation ≠ y.designation) :
    (∀ n, db.get_neo_by_designation d = some n ↔
      n ∈ db._neos ∧ n.designation = d) ∧
    (db.get_neo_by_designation d = Option.none ↔
      ∀ n ∈ db._neos, n.designation ≠ d) := by
  constructor
  · intro n
    exact find?_designation_unique db._neos huniq d n
  · rw [NEODatabase.get_neo_by_designation, List.find?_eq_none]
    simp

theorem claim_C6_lookup_designation_witness :
    neoDb0.get_neo_by_designation "2015 AB" = some neo0 ∧
    neoDb0.get_neo_by_designation "2015 ab" = Option.none :=
  ⟨((claim_C6_lookup_designation neoDb0 "2015 AB" (by
      simp [neoDb0, List.pairwise_singleton])).1 neo0).mpr
    (by constructor
        · decide
        · decide),
   (claim_C6_lookup_designation neoDb0 "2015 ab" (by
      simp [neoDb0, List.pairwise_singleton])).2.mpr (by decide)⟩

/-- Claim C7 counter-evidence: the code contradicts the claim and its
own docstring — searching by the absent (`None`) name matches an NEO
whose name is missing, instead of never matching. -/
theorem claim_C7_name_bug :
    neoUnnamed.name = Option.none ∧
    neoDbUnnamed.get_neo_by_name Option.none = some neoUnnamed := by
  constructor
  · rfl
  · rfl

theorem listModify_length {α : Type} (f : α → α) :
    ∀ (l : List α) (n : Nat), (listModify l n f).length = l.length := by
  intro l
  induction l with
  | nil => intro n; rfl
  | cons x xs ih =>
      intro n
      cases n with
      | zero => rfl
      | succ n => simp [listModify, ih n]

theorem listModify_getElem? {α : Type} (f : α → α) :
    ∀ (l : List α) (n k : Nat),
      (listModify l n f)[k]? =
        if k = n then (l[k]?).map f else l[k]? := by
  intro l
  induction l with
  | nil => intro n k; simp [listModify]
  | cons x xs ih =>
      intro n k
      cases n with
      | zero =>
          cases k with
          | zero => simp [listModify]
          | succ k => simp [listModify]
      | succ n =>
          cases k with
          | zero => simp [listModify]
          | succ k =>
              by_cases hkn : k = n <;> simp [listModify, ih, hkn]

theorem dictGet_dictSet (m : List (String × Nat)) (k : String) (v : Nat)
    (k' : String) :
    dictGet (dictSet m k v) k' =
      if k = k' then some v else dictGet m k' := by
  induction m with
  | nil => simp [dictSet, dictGet]
  | cons e rest ih =>
      rcases e with ⟨k0, v0⟩
      by_cases h0 : k0 = k
      · subst h0
        simp only [dictSet, if_pos rfl, dictGet]
        by_cases h1 : k0 = k' <;> simp [h1]
      · simp only [dictSet, if_neg h0, dictGet]
        by_cases h1 : k0 = k'
        · subst h1
          have hk : k ≠ k0 := fun hc => h0 hc.symm
          simp [hk]
        · rw [if_neg h1, ih, if_neg h1]

theorem buildMapFrom_sound (neos : List NearEarthObject) :
    ∀ (l : List NearEarthObject) (i : Nat) (m : List (String × Nat)),
      (∀ d j, dictGet m d = some j →
        ∃ nb, neos[j]? = some nb ∧ nb.designation = d) →
      (∀ k a, l[k]? = some a → neos[i + k]? = some a) →
      ∀ d j, dictGet (buildMapFrom i l m) d = some j →
        ∃ nb, neos[j]? = some nb ∧ nb.designation = d := by
  intro l
  induction l with
  | nil => intro i m hm _ d j h; exact hm d j h
  | cons neo rest ih =>
      intro i m hm hl d j h
      refine ih (i + 1) (dictSet m neo.designation i) ?_ ?_ d j h
      · intro d' j' h'
        rw [dictGet_dictSet] at h'
        by_cases hd : neo.designation = d'
        · rw [if_pos hd] at h'
          injection h' with h'
          subst h'
          have h0 := hl 0 neo (by simp)
          rw [Nat.add_zero] at h0
          exact ⟨neo, h0, hd⟩
        · rw [if_neg hd] at h'
          exact hm d' j' h'
      · intro k a hk
        have hka := hl (k + 1) a (by simpa using hk)
        rw [show i + (k + 1) = (i + 1) + k by omega] at hka
        exact hka

theorem dictGet_buildMapFrom_eq_none :
    ∀ (l : List NearEarthObject) (i : Nat) (m : List (String × Nat))
      (d : String),
      dictGet (buildMapFrom i l m) d = Option.none ↔
        (dictGet m d = Option.none ∧ ∀ a ∈ l, a.designation ≠ d) := by
  intro l
  induction l with
  | nil => intro i m d; simp [buildMapFrom]
  | cons neo rest ih =>
      intro i m d
      rw [buildMapFrom, ih]
      constructor
      · rintro ⟨h1, h2⟩
        rw [dictGet_dictSet] at h1
        by_cases hd : neo.designation = d
        · rw [if_pos hd] at h1
          exact absurd h1 (by simp)
        · rw [if_neg hd] at h1
          refine ⟨h1, ?_⟩
          intro a ha
          rcases List.mem_cons.mp ha with rfl | ha
          · exact hd
          · exact h2 a ha
      · rintro ⟨h1, h2⟩
        constructor
        · rw [dictGet_dictSet,
            if_neg (h2 neo (List.mem_cons_self _ _)), h1]
        · intro a ha
          exact h2 a (List.mem_cons_of_mem _ ha)

theorem linkedIdxs_ge (m : List (String × Nat)) (j : Nat) :
    ∀ (l : List CloseApproach) (i c : Nat),
      c ∈ linkedIdxs m i j l → i ≤ c := by
  intro l
  induction l with
  | nil => intro i c h; cases h
  | cons a rest ih =>
      intro i c h
      rw [linkedIdxs] at h
      rcases List.mem_append.mp h with h | h
      · by_cases hd : dictGet m a.designation = some j
        · rw [if_pos hd] at h
          rw [List.mem_singleton.mp h]
        · rw [if_neg hd] at h
          cases h
      · have := ih (i + 1) c h
        omega

theorem linkedIdxs_count (m : List (String × Nat)) (j : Nat) :
    ∀ (l : List CloseApproach) (i k : Nat) (a : CloseApproach),
      l[k]? = some a →
        (linkedIdxs m i j l).count (i + k) =
          if dictGet m a.designation = some j then 1 else 0 := by
  intro l
  induction l with
  | nil => intro i k a h; simp at h
  | cons a0 rest ih =>
      intro i k a h
      cases k with
      | zero =>
          rw [List.getElem?_cons_zero] at h
          injection h with h
          subst h
          rw [linkedIdxs, Nat.add_zero, List.count_append]
          have hnm : (linkedIdxs m (i + 1) j rest).count i = 0 :=
            List.count_eq_zero.mpr fun hmem =>
              absurd (linkedIdxs_ge m j rest (i + 1) i hmem) (by omega)
          rw [hnm]
          by_cases hd : dictGet m a0.designation = some j <;> simp [hd]
      | succ k =>
          rw [List.getElem?_cons_succ] at h
          rw [linkedIdxs, List.count_append]
          have h1 :
              (if dictGet m a0.designation = some j then [i] else []).count
                (i + (k + 1)) = 0 := by
            by_cases hd : dictGet m a0.designation = some j <;>
              simp [hd, List.count_eq_zero]
          rw [h1]
          have h2 := ih (i + 1) k a h
          rw [show i + (k + 1) = (i + 1) + k by omega]
          omega

theorem linkApproaches_none (m : List (String × Nat)) :
    ∀ (l : List CloseApproach) (i : Nat) (neos : List NearEarthObject)
      (a : CloseApproach), a ∈ l →
      dictGet m a.designation = Option.none →
      linkApproaches m i neos l = Option.none := by
  intro l
  induction l with
  | nil => intro i neos a h; cases h
  | cons a0 rest ih =>
      intro i neos a ha hnone
      rcases List.mem_cons.mp ha with rfl | ha
      · simp [linkApproaches, hnone]
      · rcases hd : dictGet m a0.designation with _ | j
        · simp [linkApproaches, hd]
        · simp [linkApproaches, hd, ih (i + 1) _ a ha hnone]

theorem linkApproaches_spec (m : List (String × Nat)) :
    ∀ (l : List CloseApproach) (i : Nat) (neos : List NearEarthObject),
      (∀ a ∈ l, ∃ j, dictGet m a.designation = some j) →
      ∃ neosF lF, linkApproaches m i neos l = some (neosF, lF) ∧
        lF.length = l.length ∧
        (∀ (k : Nat) (a : CloseApproach), l[k]? = some a →
          lF[k]? = some { a with neo := dictGet m a.designation }) ∧
        neosF.length = neos.length ∧
        (∀ (j : Nat) (nb : NearEarthObject), neos[j]? = some nb →
          neosF[j]? = some
            { nb with approaches := nb.approaches ++ linkedIdxs m i j l }) := by
  intro l
  induction l with
  | nil =>
      intro i neos _
      refine ⟨neos, [], rfl, rfl, ?_, rfl, ?_⟩
      · intro k a h
        simp at h
      · intro j nb h
        simpa [linkedIdxs] using h
  | cons a rest ih =>
      intro i neos hres
      rcases hres a (List.mem_cons_self _ _) with ⟨j0, hj0⟩
      have hres1 : ∀ b ∈ rest, ∃ j, dictGet m b.designation = some j :=
        fun b hb => hres b (List.mem_cons_of_mem _ hb)
      rcases ih (i + 1)
          (listModify neos j0
            fun nb => { nb with approaches := nb.approaches ++ [i] }) hres1
        with ⟨neosF, restF, heq, hlen, hget, hnlen, hneo⟩
      refine ⟨neosF, { a with neo := some j0 } :: restF, ?_, ?_, ?_, ?_, ?_⟩
      · simp only [linkApproaches, hj0, heq]
      · simp [hlen]
      · intro k b hk
        cases k with
        | zero =>
            rw [List.getElem?_cons_zero] at hk
            injection hk with hk
            subst hk
            rw [List.getElem?_cons_zero, hj0]
        | succ k =>
            rw [List.getElem?_cons_succ] at hk
            rw [List.getElem?_cons_succ]
            exact hget k b hk
      · rw [hnlen, listModify_length]
      · intro j nb hj
        have hj1 :
            (listModify neos j0
              fun nb => { nb with approaches := nb.approaches ++ [i] })[j]? =
              if j = j0 then
                (neos[j]?).map
                  fun nb => { nb with approaches := nb.approaches ++ [i] }
              else neos[j]? :=
          listModify_getElem? _ neos j0 j
      -- resume
        by_cases hjj : j = j0
        · subst hjj
          rw [if_pos rfl, hj] at hj1
          have hF := hneo j { nb with approaches := nb.approaches ++ [i] } hj1
          rw [hF, linkedIdxs, if_pos hj0]
          simp
        · rw [if_neg hjj, hj] at hj1
          have hF := hneo j nb hj1
          rw [hF, linkedIdxs,
            if_neg fun hc => hjj (Option.some.inj (hj0.symm.trans hc)).symm]
          simp

/-- Claim C1: for pre-link input where each approach's designation is
the designation of exactly one supplied NEO, the constructor succeeds
and every stored approach ends up linked: its `neo` reference is
non-absent, the referenced NEO carries the same designation, and the
approach occurs exactly once in that NEO's `approaches` collection. -/
theorem claim_C1_linking (neos : List NearEarthObject)
    (aps : List CloseApproach)
    (hpre1 : ∀ a ∈ aps, a.neo = Option.none)
    (hpre2 : ∀ nb ∈ neos, nb.approaches = [])
    (huniq : ∀ a ∈ aps,
      (neos.countP fun nb => nb.designation == a.designation) = 1) :
    ∃ db, NEODatabase.init neos aps = some db ∧
      db._approaches.length = aps.length ∧
      ∀ (i : Nat) (a : CloseApproach), db._approaches[i]? = some a →
        ∃ (j : Nat) (nb : NearEarthObject), a.neo = some j ∧
          db._neos[j]? = some nb ∧ nb.designation = a.designation ∧
          nb.approaches.count i = 1 := by
  have hsound : ∀ d j, dictGet (buildMapFrom 0 neos []) d = some j →
      ∃ nb, neos[j]? = some nb ∧ nb.designation = d := by
    refine buildMapFrom_sound neos neos 0 [] ?_ ?_
    · intro d j h
      simp [dictGet] at h
    · intro k a hk
      rw [Nat.zero_add]
      exact hk
  have hres : ∀ a ∈ aps,
      ∃ j, dictGet (buildMapFrom 0 neos []) a.designation = some j := by
    intro a ha
    rcases hne : dictGet (buildMapFrom 0 neos []) a.designation with _ | j
    · exfalso
      rcases (dictGet_buildMapFrom_eq_none neos 0 [] a.designation).mp hne
        with ⟨-, hall⟩
      have hpos :
          0 < neos.countP fun nb => nb.designation == a.designation := by
        rw [huniq a ha]
        omega
      rcases List.countP_pos_iff.mp hpos with ⟨nb, hnb, hnbd⟩
      exact hall nb hnb (by simpa using hnbd)
    · exact ⟨j, rfl⟩
  rcases linkApproaches_spec (buildMapFrom 0 neos []) aps 0 neos hres with
    ⟨neosF, apsF, heq, hlen, hget, hnlen, hneo⟩
  refine ⟨⟨neosF, apsF, buildMapFrom 0 neos []⟩, ?_, hlen, ?_⟩
  · simp only [NEODatabase.init, heq]
  · intro i a hia
    have hia2 : apsF[i]? = some a := hia
    have hilt : i < aps.length := by
      have h1 := (List.getElem?_eq_some.mp hia2).1
      omega
    rcases ha0 : aps[i]? with _ | a0
    · rw [List.getElem?_eq_none_iff] at ha0
      omega
    have hfa := hget i a0 ha0
    have haa : a =
        { a0 with
          neo := dictGet (buildMapFrom 0 neos []) a0.designation } := by
      have h2 := hia2.symm.trans hfa
      injection h2
    have ha0mem : a0 ∈ aps := by
      rcases List.getElem?_eq_some.mp ha0 with ⟨h, rfl⟩
      exact List.getElem_mem h
    rcases hres a0 ha0mem with ⟨j, hj⟩
    rcases hsound a0.designation j hj with ⟨nb, hnb, hnbd⟩
    have hFneo := hneo j nb hnb
    refine ⟨j,
      { nb with approaches :=
          nb.approaches ++ linkedIdxs (buildMapFrom 0 neos []) 0 j aps },
      ?_, hFneo, ?_, ?_⟩
    · rw [haa]
      exact hj
    · rw [haa]
      exact hnbd
    · show (nb.approaches ++
        linkedIdxs (buildMapFrom 0 neos []) 0 j aps).count i = 1
      have hnbmem : nb ∈ neos := by
        rcases List.getElem?_eq_some.mp hnb with ⟨h, rfl⟩
        exact List.getElem_mem h
      rw [hpre2 nb hnbmem, List.nil_append]
      have hcnt := linkedIdxs_count (buildMapFrom 0 neos []) j aps 0 i a0 ha0
      rw [Nat.zero_add] at hcnt
      rw [hcnt, if_pos hj]

theorem claim_C1_linking_witness :
    (∀ a ∈ [approach0], a.neo = Option.none) ∧
    (∀ nb ∈ [neo0], nb.approaches = []) ∧
    (∀ a ∈ [approach0],
      ([neo0].countP fun nb => nb.designation == a.designation) = 1) ∧
    (∃ db, NEODatabase.init [neo0] [approach0] = some db ∧
      db._approaches.length = [approach0].length ∧
      ∀ (i : Nat) (a : CloseApproach), db._approaches[i]? = some a →
        ∃ (j : Nat) (nb : NearEarthObject), a.neo = some j ∧
          db._neos[j]? = some nb ∧ nb.designation = a.designation ∧
          nb.approaches.count i = 1) :=
  ⟨by decide, by decide, by decide,
   claim_C1_linking [neo0] [approach0] (by decide) (by decide) (by decide)⟩

/-- Claim C4: if some supplied approach's designation equals no supplied
NEO's designation, the constructor fails — the unguarded designation
lookup raises — rather than completing with that approach dropped or
unlinked. -/
theorem claim_C4_orphan_fails (neos : List NearEarthObject)
    (aps : List CloseApproach) (a : CloseApproach) (ha : a ∈ aps)
    (horphan : ∀ nb ∈ neos, nb.designation ≠ a.designation) :
    NEODatabase.init neos aps = Option.none := by
  have hnone : dictGet (buildMapFrom 0 neos []) a.designation =
      Option.none :=
    (dictGet_buildMapFrom_eq_none neos 0 [] a.designation).mpr
      ⟨rfl, horphan⟩
  simp only [NEODatabase.init,
    linkApproaches_none (buildMapFrom 0 neos []) aps 0 neos a ha hnone]

theorem claim_C4_orphan_fails_witness :
    apOrphan ∈ [approach0, apOrphan] ∧
    (∀ nb ∈ [neo0], nb.designation ≠ apOrphan.designation) ∧
    NEODatabase.init [neo0] [approach0, apOrphan] = Option.none :=
  ⟨by decide, by decide,
   claim_C4_orphan_fails [neo0] [approach0, apOrphan] apOrphan (by decide)
     (by decide)⟩
